import Mathlib

/-!
Shallow embedding of `src/gadgets/int8.rs` (simpleworks): the `Int8<F>`
gadget — a signed 8-bit integer encoded as eight little-endian boolean
circuit values inside a rank-1 constraint system — together with its
constructors (`constant`, `new_variable`), the modular addition gadget
(`addmany`), and the cleartext value accessor (`R1CSVar::value`).

Modelling conventions, each noted again at the definition it concerns:

* The prime field `F` is embedded as `ℤ`.  The gadget only ever builds the
  field constants 1, 2, 4, ..., 128 (by `double_in_place` from `one`) and
  adds or subtracts at most 24 such terms, so every field element that can
  appear in a coefficient or in the evaluation of a linear combination is
  an integer of magnitude below 2^10, while the field the repository
  instantiates (the BLS12-381 scalar field) has characteristic near 2^255:
  no reduction can ever occur and integer arithmetic models the field
  arithmetic exactly, including every zero / nonzero distinction.

* Rust `i8` values are embedded as `ℤ`; theorems carry the range
  `-128 ≤ v ≤ 127` as a hypothesis where the Rust type enforces it.
  Rust's arithmetic shift `>> i` on `i8` and num-bigint's `>> i` both round
  toward negative infinity, and `& 1` on a negative value acts on the
  two's-complement representation; on `ℤ` these are exactly `Int.ediv` by
  `2 ^ i` (Lean's `/`) and `Int.emod` by 2 (Lean's `%`).  num-integer's
  `mod_floor` with the positive modulus 256 is `% 256` on `ℤ`.

* The constraint-system collaborator (ark-relations' `ConstraintSystemRef`)
  is an explicit state value threaded through every call; the Rust gadget
  reaches it through handles stored in the bits.  Setup mode (constraint
  generation without an assignment) is the mode in which allocation thunks
  are never run; outside setup mode they are run and a missing value
  surfaces `SynthesisError::AssignmentMissing`.
-/

namespace Simpleworks

deriving instance DecidableEq for Except

/-- ark-r1cs-std's `Boolean<F>`: a compile-time constant bit
(`Boolean::Constant`), a reference to an allocated boolean variable
(`Boolean::Is`), or the logical negation of such a reference
(`Boolean::Not`).  Allocated variables are identified by allocation index. -/
inductive Boolean where
  | Is : Nat → Boolean
  | Not : Nat → Boolean
  | Constant : Bool → Boolean
deriving DecidableEq

/-- ark-relations' `LinearCombination<F>` as the gadget uses it: a constant
term (the accumulated coefficient of `Variable::One`, whose assignment is
fixed to 1) plus a list of (coefficient, variable) terms.  arkworks keeps
the term list merged by variable; this embedding appends terms instead,
which leaves the evaluation at every assignment — the only thing any
claim consults — unchanged. -/
structure LinearCombination where
  constant : ℤ
  terms : List (ℤ × Nat)
deriving DecidableEq

/-- `LinearCombination::zero()`. -/
def LinearCombination.zero : LinearCombination := ⟨0, []⟩

/-- `lc += (coeff, var)`. -/
def LinearCombination.add_term (lc : LinearCombination) (c : ℤ) (v : Nat) : LinearCombination :=
  ⟨lc.constant, lc.terms ++ [(c, v)]⟩

/-- `lc += (coeff, Variable::One)`. -/
def LinearCombination.add_one (lc : LinearCombination) (c : ℤ) : LinearCombination :=
  ⟨lc.constant + c, lc.terms⟩

/-- `lc = lc - (coeff, var)`. -/
def LinearCombination.sub_term (lc : LinearCombination) (c : ℤ) (v : Nat) : LinearCombination :=
  ⟨lc.constant, lc.terms ++ [(-c, v)]⟩

/-- Value of a linear combination under an assignment of the allocated
variables (the `One` variable contributing its fixed constant). -/
def LinearCombination.eval (lc : LinearCombination) (ρ : Nat → ℤ) : ℤ :=
  lc.constant + (lc.terms.map fun t => t.1 * ρ t.2).sum

/-- The constraint-system collaborator (`ConstraintSystemRef<F>`), reduced
to what the Int8 gadget uses: whether the system is in setup mode, the
next free variable index, the list of witnessed boolean assignments
(variable `i` is assigned `assignment.get? i`; in setup mode assignment
thunks are never run and nothing is stored), and the enforced constraints.
Every constraint this gadget enforces has the rank-1 shape
`lc!() * lc!() = lc`, i.e. `lc = 0`, so a constraint is recorded as the
linear combination that must equal zero.  Input and witness variables
share one index space here; the gadget never relies on the distinction.
The booleanity constraint ark-r1cs-std attaches inside each boolean
allocation is not recorded: assignments are typed `Bool`, so it holds by
construction under every assignment this embedding can represent. -/
structure ConstraintSystem where
  setupMode : Bool
  numWitness : Nat
  assignment : List Bool
  constraints : List LinearCombination
deriving DecidableEq

/-- A fresh constraint system (`ConstraintSystem::new_ref()`), in the given
mode. -/
def ConstraintSystem.empty (setup : Bool) : ConstraintSystem := ⟨setup, 0, [], []⟩

/-- The assignment of the allocated variables as integers (false ↦ 0,
true ↦ 1); unallocated indices read as 0. -/
def ConstraintSystem.rho (cs : ConstraintSystem) : Nat → ℤ := fun v =>
  match cs.assignment.get? v with
  | some true => 1
  | _ => 0

/-- `cs.enforce_constraint(lc!(), lc!(), lc)`: record the rank-1 constraint
`0 * 0 = lc`. -/
def ConstraintSystem.enforce_zero (cs : ConstraintSystem) (lc : LinearCombination) :
    ConstraintSystem :=
  { cs with constraints := cs.constraints ++ [lc] }

/-- `cs.is_satisfied()`: every enforced constraint evaluates to zero under
the witnessed assignment. -/
def ConstraintSystem.is_satisfied (cs : ConstraintSystem) : Bool :=
  cs.constraints.all fun lc => lc.eval cs.rho == 0

/-- ark-r1cs-std's `AllocationMode`. -/
inductive AllocationMode where
  | Constant : AllocationMode
  | Input : AllocationMode
  | Witness : AllocationMode
deriving DecidableEq

/-- The errors the embedded operations surface: the propagated
`SynthesisError::AssignmentMissing` from `Assignment::get` on a missing
value, the `bail!("{e}")` for a reduced value not representable as `i8`,
the `bail!` for a `None` result value
("The result of the modular addition between Int8 is None"), and the
`try_from` failure for a result bit count other than 8. -/
inductive AddError where
  | assignmentMissing : AddError
  | modularValueNotI8 : AddError
  | resultIsNone : AddError
  | wrongBitCount : AddError
deriving DecidableEq

/-- `const I8_SIZE_IN_BITS: usize = 8`. -/
def I8_SIZE_IN_BITS : Nat := 8

/-- `const OPERANDS_LEN: usize = 2`. -/
def OPERANDS_LEN : Nat := 2

/-- `Int8<F>`: the little-endian bits (`[Boolean<F>; 8]`, modelled as a
list — every byte the module builds has exactly 8 bits) plus the optional
cleartext value. -/
structure Int8 where
  bits : List Boolean
  value : Option ℤ
deriving DecidableEq

/-- The bit loop of `Int8::constant`: each step emits the lowest bit of the
running value (`tmp & 1 == 1`) as a constant bit and arithmetic-shifts the
running value right one position (`tmp >>= 1`), `n` times. -/
def constant_bits (tmp : ℤ) : Nat → List Boolean
  | 0 => []
  | n + 1 => Boolean.Constant (tmp % 2 == 1) :: constant_bits (tmp / 2) n

/-- `Int8::constant`: eight constant bits obtained by repeatedly testing
the lowest bit and arithmetic-shifting right, with the cleartext value
stored; no constraint-system interaction. -/
def Int8.constant (value : ℤ) : Int8 :=
  { bits := constant_bits value 8, value := some value }

/-- Bit `i` of the two's-complement pattern of `v`: `(v >> i) & 1 == 1`
with arithmetic shift, i.e. the parity of the floor quotient of `v` by
`2 ^ i`. -/
def tcBit (v : ℤ) (i : Nat) : Bool := v / 2 ^ i % 2 == 1

/-- ark-r1cs-std's `AllocatedBool::new_witness` (and `new_input`, which the
gadget treats identically): allocate the next variable index; outside setup
mode the value thunk is run, so a missing value surfaces
`AssignmentMissing`, while in setup mode the thunk is never run and no
assignment is stored. -/
def AllocatedBool.new_witness (cs : ConstraintSystem) (val : Option Bool) :
    Except AddError (ConstraintSystem × Nat) :=
  if cs.setupMode then
    Except.ok ({ cs with numWitness := cs.numWitness + 1 }, cs.numWitness)
  else
    match val with
    | none => Except.error AddError.assignmentMissing
    | some b =>
        Except.ok
          ({ cs with numWitness := cs.numWitness + 1, assignment := cs.assignment ++ [b] },
            cs.numWitness)

/-- ark-r1cs-std's `Boolean::new_variable`: constant mode runs the value
thunk and creates a constant bit with no allocation; input and witness
modes allocate a boolean variable. -/
def Boolean.new_variable (cs : ConstraintSystem) (val : Option Bool) (mode : AllocationMode) :
    Except AddError (ConstraintSystem × Boolean) :=
  match mode with
  | AllocationMode.Constant =>
      match val with
      | none => Except.error AddError.assignmentMissing
      | some b => Except.ok (cs, Boolean.Constant b)
  | _ =>
      match AllocatedBool.new_witness cs val with
      | Except.error e => Except.error e
      | Except.ok (cs', v) => Except.ok (cs', Boolean.Is v)

/-- The per-position loop of `Int8::new_variable`: allocate one boolean per
optional bit value under the given mode. -/
def alloc_bits (cs : ConstraintSystem) (mode : AllocationMode) :
    List (Option Bool) → Except AddError (ConstraintSystem × List Boolean)
  | [] => Except.ok (cs, [])
  | v :: rest =>
      match Boolean.new_variable cs v mode with
      | Except.error e => Except.error e
      | Except.ok (cs', b) =>
          match alloc_bits cs' mode rest with
          | Except.error e => Except.error e
          | Except.ok (cs'', bs) => Except.ok (cs'', b :: bs)

/-- `Int8::new_variable` (the `AllocVar<i8>` implementation): when the value
is known each of the 8 bit values is bit `i` of its two's-complement
pattern (`(val >> i) & 1 == 1`), else unknown; each bit is allocated under
the given mode, and the optional value is stored unchanged. -/
def Int8.new_variable (cs : ConstraintSystem) (value : Option ℤ) (mode : AllocationMode) :
    Except AddError (ConstraintSystem × Int8) :=
  let values : List (Option Bool) :=
    match value with
    | some val => (List.range I8_SIZE_IN_BITS).map fun i => some (val / 2 ^ i % 2 == 1)
    | none => List.replicate I8_SIZE_IN_BITS none
  match alloc_bits cs mode values with
  | Except.error e => Except.error e
  | Except.ok (cs', bits) => Except.ok (cs', { bits := bits, value := value })

/-- The inner bit loop of `addmany`: fold each bit of one operand into the
linear combination at a coefficient that starts at the given value and
doubles every position — `Is` adds `(coeff, var)`, `Not` adds
`(coeff, One) - (coeff, var)`, a true constant adds `(coeff, One)` — and
clear the all-constants flag on every non-constant bit. -/
def fold_operand_bits : List Boolean → ℤ → LinearCombination → Bool → LinearCombination × Bool
  | [], _, lc, allc => (lc, allc)
  | Boolean.Is v :: rest, coeff, lc, _ =>
      fold_operand_bits rest (coeff * 2) (lc.add_term coeff v) false
  | Boolean.Not v :: rest, coeff, lc, _ =>
      fold_operand_bits rest (coeff * 2) ((lc.add_one coeff).sub_term coeff v) false
  | Boolean.Constant b :: rest, coeff, lc, allc =>
      fold_operand_bits rest (coeff * 2) (if b then lc.add_one coeff else lc) allc

/-- The outer operand loop of `addmany`: accumulate the optional cleartext
sum (permanently unknown from the instant any operand's value is unknown),
the linear combination, and the all-constants flag; the coefficient
restarts at one for each operand, so positions across operands share one
weight scale. -/
def accum_operands :
    Option ℤ → LinearCombination → Bool → List Int8 → Option ℤ × LinearCombination × Bool
  | rv, lc, allc, [] => (rv, lc, allc)
  | rv, lc, allc, op :: rest =>
      let rv' : Option ℤ :=
        match op.value with
        | some val => rv.map fun v => v + val
        | none => none
      let p := fold_operand_bits op.bits 1 lc allc
      accum_operands rv' p.1 p.2 rest

/-- The cleartext reduction of `addmany`
(`(v.add(shift).mod_floor(&modulus)).sub(shift).to_i8().ok_or(...)`):
bias by `shift = 2^7`, take the floor remainder modulo `modulus = 2^8`,
unbias, then the `to_i8` range check. -/
def modular_reduce (v : ℤ) : Except String ℤ :=
  let modulus : ℤ := 2 ^ I8_SIZE_IN_BITS
  let shift : ℤ := 2 ^ (I8_SIZE_IN_BITS - 1)
  let m := (v + shift) % modulus - shift
  if -128 ≤ m ∧ m ≤ 127 then Except.ok m
  else Except.error "Modular value cannot be represented as i8."

/-- The result-bit loop of `addmany`: while `max_value` is nonzero, witness
the next result bit (`(v >> i) & 1 == 1` of the accumulated cleartext sum),
subtract it from the linear combination at the doubling coefficient, push
it, and halve `max_value`. -/
def alloc_result_bits (cs : ConstraintSystem) (maxValue : Nat) (rv : Option ℤ) (i : Nat)
    (coeff : ℤ) (lc : LinearCombination) (bits : List Boolean) :
    Except AddError (ConstraintSystem × LinearCombination × List Boolean) :=
  if h : maxValue = 0 then Except.ok (cs, lc, bits)
  else
    match AllocatedBool.new_witness cs (rv.map fun v => v / 2 ^ i % 2 == 1) with
    | Except.error e => Except.error e
    | Except.ok (cs', b) =>
        alloc_result_bits cs' (maxValue / 2) rv (i + 1) (coeff * 2) (lc.sub_term coeff b)
          (bits ++ [Boolean.Is b])
  termination_by maxValue
  decreasing_by exact Nat.div_lt_self (Nat.pos_of_ne_zero h) (by norm_num)

/-- `Int8::addmany` for its fixed two operands, step for step from the
source: set `max_value = i8::MAX * OPERANDS_LEN`; accumulate the optional
cleartext sum, the linear combination and the all-constants flag over both
operands; reduce the cleartext sum modulo 2^8; if every contributing bit
was constant and the reduced value passed the `i8` check, short-circuit to
`Int8::constant` of it with the system untouched; otherwise run the
result-bit loop, enforce the single constraint `lc = 0`, truncate the
result bits to 8, check the bit count (`try_from`), and return according
to the reduced value (`Some(Ok(..))` / `Some(Err(..))` / `None`). -/
def Int8.addmany (cs : ConstraintSystem) (op0 op1 : Int8) :
    Except AddError (ConstraintSystem × Int8) :=
  let maxValue : Nat := 127 * OPERANDS_LEN
  let acc := accum_operands (some 0) LinearCombination.zero true [op0, op1]
  let modularValue : Option (Except String ℤ) := acc.1.map modular_reduce
  match modularValue, acc.2.2 with
  | some (Except.ok m), true => Except.ok (cs, Int8.constant m)
  | mv, _ =>
      match alloc_result_bits cs maxValue acc.1 0 1 acc.2.1 [] with
      | Except.error e => Except.error e
      | Except.ok (cs1, lc1, resultBits) =>
          let cs2 := cs1.enforce_zero lc1
          let truncated := resultBits.take I8_SIZE_IN_BITS
          if truncated.length = I8_SIZE_IN_BITS then
            match mv with
            | some (Except.ok m) => Except.ok (cs2, { bits := truncated, value := some m })
            | some (Except.error _) => Except.error AddError.modularValueNotI8
            | none => Except.error AddError.resultIsNone
          else Except.error AddError.wrongBitCount

/-- `Boolean::value()` under the system's witnessed assignment: constants
are known outright; allocated and negated bits read the stored assignment
and surface `AssignmentMissing` when it is absent. -/
def Boolean.value' (cs : ConstraintSystem) : Boolean → Except AddError Bool
  | Boolean.Constant b => Except.ok b
  | Boolean.Is v =>
      match cs.assignment.get? v with
      | some b => Except.ok b
      | none => Except.error AddError.assignmentMissing
  | Boolean.Not v =>
      match cs.assignment.get? v with
      | some b => Except.ok (!b)
      | none => Except.error AddError.assignmentMissing

/-- Rust `i8` left shift of a bit value `b ∈ {0, 1}`: `(b << i)` at signed
8-bit width, i.e. the two's-complement wrap of `b * 2 ^ i`. -/
def i8_shl (b : ℤ) (i : Nat) : ℤ := (b * 2 ^ i + 128) % 256 - 128

/-- The summation loop of `R1CSVar::value` for `Int8`: the running optional
total starts absent and each position adds `i8::from(bit) << i` (the `i8`
partial sums never leave `[-128, 127]`, so plain integer addition is
exact). -/
def decode_bits (cs : ConstraintSystem) :
    List Boolean → Nat → Option ℤ → Except AddError (Option ℤ)
  | [], _, acc => Except.ok acc
  | b :: rest, i, acc =>
      match b.value' cs with
      | Except.error e => Except.error e
      | Except.ok bv =>
          decode_bits cs rest (i + 1) (some (acc.getD 0 + i8_shl (if bv then 1 else 0) i))

/-- `R1CSVar::value` for `Int8`: recompute the cleartext value from the bit
assignments by summing each bit shifted to its position, then `.get()` the
optional total (absent only when there are no bits). -/
def Int8.value' (cs : ConstraintSystem) (x : Int8) : Except AddError ℤ :=
  match decode_bits cs x.bits 0 none with
  | Except.error e => Except.error e
  | Except.ok none => Except.error AddError.assignmentMissing
  | Except.ok (some v) => Except.ok v

/-- Whether a bit is a compile-time constant (`Boolean::Constant`). -/
def Boolean.is_constant : Boolean → Bool
  | Boolean.Constant _ => true
  | _ => false

/-- Whether every bit of the byte is a compile-time constant. -/
def Int8.all_constant_bits (x : Int8) : Bool := x.bits.all Boolean.is_constant

/-- Contribution of one bit at a positional weight, stated as claim C9
words it: a Constant bit contributes its fixed value times the weight, a
Variable bit contributes weight times the variable, and a NegatedVariable
bit contributes weight times one minus weight times the variable. -/
def bit_contribution (b : Boolean) (w : ℤ) (ρ : Nat → ℤ) : ℤ :=
  match b with
  | Boolean.Constant bit => (if bit then 1 else 0) * w
  | Boolean.Is v => w * ρ v
  | Boolean.Not v => w * 1 - w * ρ v

/-- Total contribution of one operand as claim C9 words it: bit position
`i` contributes at weight `2 ^ i`. -/
def operand_contribution (op : Int8) (ρ : Nat → ℤ) : ℤ :=
  (op.bits.enum.map fun p => bit_contribution p.2 (2 ^ p.1) ρ).sum

/-- The representation invariant of claim C5, decidably: when the cleartext
value is present, the bit values (constant or witnessed) are exactly the 8
bits of its two's-complement pattern, and the value accessor decodes the
bits back to the stored value. -/
def repr_ok (cs : ConstraintSystem) (x : Int8) : Bool :=
  match x.value with
  | none => true
  | some v =>
      decide ((x.bits.map fun b => b.value' cs)
          = (List.range 8).map fun i => Except.ok (tcBit v i))
        && decide (x.value' cs = Except.ok v)

/-! ### Evaluation lemmas for linear combinations -/

lemma eval_add_term (lc : LinearCombination) (c : ℤ) (v : Nat) (ρ : Nat → ℤ) :
    (lc.add_term c v).eval ρ = lc.eval ρ + c * ρ v := by
  simp [LinearCombination.add_term, LinearCombination.eval]; ring

lemma eval_add_one (lc : LinearCombination) (c : ℤ) (ρ : Nat → ℤ) :
    (lc.add_one c).eval ρ = lc.eval ρ + c := by
  simp [LinearCombination.add_one, LinearCombination.eval]; ring

lemma eval_sub_term (lc : LinearCombination) (c : ℤ) (v : Nat) (ρ : Nat → ℤ) :
    (lc.sub_term c v).eval ρ = lc.eval ρ - c * ρ v := by
  simp [LinearCombination.sub_term, LinearCombination.eval]; ring

/-! ### Basic facts about the constant constructor -/

lemma constant_bits_length (tmp : ℤ) (n : Nat) : (constant_bits tmp n).length = n := by
  induction n generalizing tmp with
  | zero => simp [constant_bits]
  | succ k ih => simp [constant_bits, ih]

lemma constant_bits_all_constant (tmp : ℤ) (n : Nat) :
    (constant_bits tmp n).all Boolean.is_constant = true := by
  induction n generalizing tmp with
  | zero => simp [constant_bits]
  | succ k ih => simp [constant_bits, Boolean.is_constant, ih]

/-! ### The cleartext reduction always lands in `i8` range -/

lemma modular_reduce_ok (v : ℤ) : modular_reduce v = Except.ok ((v + 128) % 256 - 128) := by
  simp only [modular_reduce, I8_SIZE_IN_BITS]
  norm_num
  intro h
  exact absurd (h (by omega)) (by omega)

lemma wrap_lb (v : ℤ) : -128 ≤ (v + 128) % 256 - 128 := by omega

lemma wrap_ub (v : ℤ) : (v + 128) % 256 - 128 ≤ 127 := by omega

/-! ### The operand accumulation loop -/

lemma accum_operands_fst (op0 op1 : Int8) (z : ℤ) (lc : LinearCombination) (allc : Bool) :
    (accum_operands (some z) lc allc [op0, op1]).1 =
      match op0.value, op1.value with
      | some a, some b => some (z + a + b)
      | _, _ => none := by
  cases h0 : op0.value <;> cases h1 : op1.value <;> simp [accum_operands, h0, h1]

lemma fold_operand_bits_snd (bits : List Boolean) (coeff : ℤ) (lc : LinearCombination)
    (allc : Bool) :
    (fold_operand_bits bits coeff lc allc).2 = (allc && bits.all Boolean.is_constant) := by
  induction bits generalizing coeff lc allc with
  | nil => simp [fold_operand_bits]
  | cons b rest ih => cases b <;> simp [fold_operand_bits, Boolean.is_constant, ih]

lemma accum_operands_snd_snd (op0 op1 : Int8) (z : Option ℤ) (lc : LinearCombination)
    (allc : Bool) :
    (accum_operands z lc allc [op0, op1]).2.2 =
      (allc && (op0.all_constant_bits && op1.all_constant_bits)) := by
  cases h0 : op0.value <;> cases h1 : op1.value <;>
    simp [accum_operands, h0, h1, Int8.all_constant_bits, fold_operand_bits_snd, Bool.and_assoc]

/-! ### The result-bit loop at the concrete bound `max_value = 254` -/

lemma alloc_result_bits_254_known (cs : ConstraintSystem) (v : ℤ) (lc : LinearCombination)
    (hs : cs.setupMode = false) :
    alloc_result_bits cs 254 (some v) 0 1 lc [] =
      Except.ok
        (⟨false, cs.numWitness + 8,
          cs.assignment ++ [tcBit v 0, tcBit v 1, tcBit v 2, tcBit v 3,
            tcBit v 4, tcBit v 5, tcBit v 6, tcBit v 7],
          cs.constraints⟩,
        ⟨lc.constant,
          lc.terms ++ [(-1, cs.numWitness), (-2, cs.numWitness + 1), (-4, cs.numWitness + 2),
            (-8, cs.numWitness + 3), (-16, cs.numWitness + 4), (-32, cs.numWitness + 5),
            (-64, cs.numWitness + 6), (-128, cs.numWitness + 7)]⟩,
        [Boolean.Is cs.numWitness, Boolean.Is (cs.numWitness + 1), Boolean.Is (cs.numWitness + 2),
          Boolean.Is (cs.numWitness + 3), Boolean.Is (cs.numWitness + 4),
          Boolean.Is (cs.numWitness + 5), Boolean.Is (cs.numWitness + 6),
          Boolean.Is (cs.numWitness + 7)]) := by
  obtain ⟨sm, nw, asg, cons⟩ := cs
  simp only [ConstraintSystem.setupMode] at hs
  subst hs
  simp +arith [alloc_result_bits, AllocatedBool.new_witness, tcBit, LinearCombination.sub_term]

lemma alloc_result_bits_254_setup (cs : ConstraintSystem) (rv : Option ℤ) (lc : LinearCombination)
    (hs : cs.setupMode = true) :
    alloc_result_bits cs 254 rv 0 1 lc [] =
      Except.ok
        (⟨true, cs.numWitness + 8, cs.assignment, cs.constraints⟩,
        ⟨lc.constant,
          lc.terms ++ [(-1, cs.numWitness), (-2, cs.numWitness + 1), (-4, cs.numWitness + 2),
            (-8, cs.numWitness + 3), (-16, cs.numWitness + 4), (-32, cs.numWitness + 5),
            (-64, cs.numWitness + 6), (-128, cs.numWitness + 7)]⟩,
        [Boolean.Is cs.numWitness, Boolean.Is (cs.numWitness + 1), Boolean.Is (cs.numWitness + 2),
          Boolean.Is (cs.numWitness + 3), Boolean.Is (cs.numWitness + 4),
          Boolean.Is (cs.numWitness + 5), Boolean.Is (cs.numWitness + 6),
          Boolean.Is (cs.numWitness + 7)]) := by
  obtain ⟨sm, nw, asg, cons⟩ := cs
  simp only [ConstraintSystem.setupMode] at hs
  subst hs
  simp +arith [alloc_result_bits, AllocatedBool.new_witness, LinearCombination.sub_term]

lemma alloc_result_bits_254_none (cs : ConstraintSystem) (lc : LinearCombination)
    (hs : cs.setupMode = false) :
    alloc_result_bits cs 254 none 0 1 lc [] = Except.error AddError.assignmentMissing := by
  simp [alloc_result_bits, AllocatedBool.new_witness, hs]

/-! ### Decoding the bits back to the cleartext value -/

lemma ite_bit (z : ℤ) : (if (z % 2 == 1) then (1 : ℤ) else 0) = z % 2 := by
  rcases Int.emod_two_eq z with h | h <;> simp [h]

lemma beq_one_congr (a b : ℤ) (h : a = b) : (a == 1) = (b == 1) := by rw [h]

lemma value'_eq_of_bit_values (cs : ConstraintSystem) (bs : List Boolean) (w : Option ℤ)
    (c0 c1 c2 c3 c4 c5 c6 c7 : Bool)
    (h : (bs.map fun b => b.value' cs)
        = [Except.ok c0, Except.ok c1, Except.ok c2, Except.ok c3,
           Except.ok c4, Except.ok c5, Except.ok c6, Except.ok c7]) :
    Int8.value' cs ⟨bs, w⟩ =
      Except.ok (0 + i8_shl (if c0 then 1 else 0) 0 + i8_shl (if c1 then 1 else 0) 1
        + i8_shl (if c2 then 1 else 0) 2 + i8_shl (if c3 then 1 else 0) 3
        + i8_shl (if c4 then 1 else 0) 4 + i8_shl (if c5 then 1 else 0) 5
        + i8_shl (if c6 then 1 else 0) 6 + i8_shl (if c7 then 1 else 0) 7) := by
  have hlen : bs.length = 8 := by simpa using congrArg List.length h
  obtain ⟨b0, b1, b2, b3, b4, b5, b6, b7, h8⟩ :
      ∃ b0 b1 b2 b3 b4 b5 b6 b7, bs = [b0, b1, b2, b3, b4, b5, b6, b7] := by
    rcases bs with _ | ⟨b0, _ | ⟨b1, _ | ⟨b2, _ | ⟨b3, _ | ⟨b4, _ | ⟨b5, _ | ⟨b6, _ |
      ⟨b7, _ | ⟨b8, t⟩⟩⟩⟩⟩⟩⟩⟩⟩ <;> simp at hlen
    exact ⟨b0, b1, b2, b3, b4, b5, b6, b7, rfl⟩
  subst h8
  simp only [List.map_cons, List.map_nil, List.cons.injEq, and_true] at h
  obtain ⟨h0, h1, h2, h3, h4, h5, h6, h7⟩ := h
  simp [Int8.value', decode_bits, h0, h1, h2, h3, h4, h5, h6, h7]

lemma tc_decode (v : ℤ) (hl : -128 ≤ v) (hu : v ≤ 127) :
    0 + i8_shl (if tcBit v 0 then 1 else 0) 0 + i8_shl (if tcBit v 1 then 1 else 0) 1
      + i8_shl (if tcBit v 2 then 1 else 0) 2 + i8_shl (if tcBit v 3 then 1 else 0) 3
      + i8_shl (if tcBit v 4 then 1 else 0) 4 + i8_shl (if tcBit v 5 then 1 else 0) 5
      + i8_shl (if tcBit v 6 then 1 else 0) 6 + i8_shl (if tcBit v 7 then 1 else 0) 7 = v := by
  simp only [tcBit, i8_shl, ite_bit]
  norm_num
  omega

lemma value'_tc (cs : ConstraintSystem) (bs : List Boolean) (w : Option ℤ) (v : ℤ)
    (hl : -128 ≤ v) (hu : v ≤ 127)
    (h : (bs.map fun b => b.value' cs) = (List.range 8).map fun i => Except.ok (tcBit v i)) :
    Int8.value' cs ⟨bs, w⟩ = Except.ok v := by
  have hr : List.range 8 = [0, 1, 2, 3, 4, 5, 6, 7] := rfl
  rw [hr] at h
  simp only [List.map_cons, List.map_nil] at h
  rw [value'_eq_of_bit_values cs bs w _ _ _ _ _ _ _ _ h, tc_decode v hl hu]

lemma repr_ok_of (cs : ConstraintSystem) (x : Int8) (v : ℤ)
    (hv : x.value = some v)
    (hb : (x.bits.map fun b => b.value' cs) = (List.range 8).map fun i => Except.ok (tcBit v i))
    (hdec : Int8.value' cs x = Except.ok v) :
    repr_ok cs x = true := by
  simp [repr_ok, hv, hb, hdec]

lemma constant_bits_map_value' (cs : ConstraintSystem) (v : ℤ) :
    ((constant_bits v 8).map fun b => b.value' cs)
      = (List.range 8).map fun i => Except.ok (tcBit v i) := by
  have hr : List.range 8 = [0, 1, 2, 3, 4, 5, 6, 7] := rfl
  rw [hr]
  simp only [constant_bits, Boolean.value', tcBit, List.map_cons, List.map_nil, List.cons.injEq,
    and_true]
  norm_num
  and_intros <;> omega

lemma repr_ok_constant (cs : ConstraintSystem) (v : ℤ) (hl : -128 ≤ v) (hu : v ≤ 127) :
    repr_ok cs (Int8.constant v) = true := by
  refine repr_ok_of cs _ v rfl (constant_bits_map_value' cs v) ?_
  exact value'_tc cs _ _ v hl hu (constant_bits_map_value' cs v)

/-! ### The allocation constructor -/

lemma map_value'_is_bits (sm : Bool) (nw : Nat) (asg : List Bool)
    (cons : List LinearCombination) (c0 c1 c2 c3 c4 c5 c6 c7 : Bool) :
    ([Boolean.Is asg.length, Boolean.Is (asg.length + 1), Boolean.Is (asg.length + 2),
      Boolean.Is (asg.length + 3), Boolean.Is (asg.length + 4), Boolean.Is (asg.length + 5),
      Boolean.Is (asg.length + 6), Boolean.Is (asg.length + 7)].map
        fun b => b.value' ⟨sm, nw, asg ++ [c0, c1, c2, c3, c4, c5, c6, c7], cons⟩)
      = [Except.ok c0, Except.ok c1, Except.ok c2, Except.ok c3,
         Except.ok c4, Except.ok c5, Except.ok c6, Except.ok c7] := by
  simp [Boolean.value', List.getElem?_append_right, List.getElem_append_right,
    Nat.add_sub_cancel_left]

lemma range_eight_tc (v : ℤ) :
    ((List.range 8).map fun i => (Except.ok (tcBit v i) : Except AddError Bool))
      = [Except.ok (tcBit v 0), Except.ok (tcBit v 1), Except.ok (tcBit v 2),
         Except.ok (tcBit v 3), Except.ok (tcBit v 4), Except.ok (tcBit v 5),
         Except.ok (tcBit v 6), Except.ok (tcBit v 7)] := rfl

lemma new_variable_constant_known (cs : ConstraintSystem) (v : ℤ) :
    Int8.new_variable cs (some v) AllocationMode.Constant =
      Except.ok (cs,
        ⟨[Boolean.Constant (tcBit v 0), Boolean.Constant (tcBit v 1), Boolean.Constant (tcBit v 2),
          Boolean.Constant (tcBit v 3), Boolean.Constant (tcBit v 4), Boolean.Constant (tcBit v 5),
          Boolean.Constant (tcBit v 6), Boolean.Constant (tcBit v 7)], some v⟩) := by
  have hr : List.range 8 = [0, 1, 2, 3, 4, 5, 6, 7] := rfl
  simp [Int8.new_variable, I8_SIZE_IN_BITS, hr, alloc_bits, Boolean.new_variable, tcBit]

lemma new_variable_alloc_known (cs : ConstraintSystem) (v : ℤ) (mode : AllocationMode)
    (hm : mode ≠ AllocationMode.Constant) (hs : cs.setupMode = false) :
    Int8.new_variable cs (some v) mode =
      Except.ok
        (⟨false, cs.numWitness + 8,
          cs.assignment ++ [tcBit v 0, tcBit v 1, tcBit v 2, tcBit v 3, tcBit v 4, tcBit v 5,
            tcBit v 6, tcBit v 7], cs.constraints⟩,
        ⟨[Boolean.Is cs.numWitness, Boolean.Is (cs.numWitness + 1), Boolean.Is (cs.numWitness + 2),
          Boolean.Is (cs.numWitness + 3), Boolean.Is (cs.numWitness + 4),
          Boolean.Is (cs.numWitness + 5), Boolean.Is (cs.numWitness + 6),
          Boolean.Is (cs.numWitness + 7)], some v⟩) := by
  have hr : List.range 8 = [0, 1, 2, 3, 4, 5, 6, 7] := rfl
  obtain ⟨sm, nw, asg, cons⟩ := cs
  simp only [ConstraintSystem.setupMode] at hs
  subst hs
  cases mode with
  | Constant => exact absurd rfl hm
  | Input =>
      simp +arith [Int8.new_variable, I8_SIZE_IN_BITS, hr, alloc_bits, Boolean.new_variable,
        AllocatedBool.new_witness, tcBit]
  | Witness =>
      simp +arith [Int8.new_variable, I8_SIZE_IN_BITS, hr, alloc_bits, Boolean.new_variable,
        AllocatedBool.new_witness, tcBit]

lemma repr_ok_new_variable (cs : ConstraintSystem) (v : ℤ) (mode : AllocationMode)
    (cs' : ConstraintSystem) (x : Int8) (hs : cs.setupMode = false)
    (hwf : cs.numWitness = cs.assignment.length) (hl : -128 ≤ v) (hu : v ≤ 127)
    (hok : Int8.new_variable cs (some v) mode = Except.ok (cs', x)) :
    repr_ok cs' x = true := by
  by_cases hm : mode = AllocationMode.Constant
  · subst hm
    rw [new_variable_constant_known] at hok
    obtain ⟨rfl, rfl⟩ : cs = cs' ∧
        (⟨[Boolean.Constant (tcBit v 0), Boolean.Constant (tcBit v 1),
            Boolean.Constant (tcBit v 2), Boolean.Constant (tcBit v 3),
            Boolean.Constant (tcBit v 4), Boolean.Constant (tcBit v 5),
            Boolean.Constant (tcBit v 6), Boolean.Constant (tcBit v 7)], some v⟩ : Int8) = x := by
      have := hok
      simp only [Except.ok.injEq, Prod.mk.injEq] at this
      exact this
    have hb : (([Boolean.Constant (tcBit v 0), Boolean.Constant (tcBit v 1),
        Boolean.Constant (tcBit v 2), Boolean.Constant (tcBit v 3), Boolean.Constant (tcBit v 4),
        Boolean.Constant (tcBit v 5), Boolean.Constant (tcBit v 6),
        Boolean.Constant (tcBit v 7)] : List Boolean).map fun b => b.value' cs)
        = (List.range 8).map fun i => Except.ok (tcBit v i) := by
      rw [range_eight_tc]
      simp [Boolean.value']
    exact repr_ok_of cs _ v rfl hb (value'_tc cs _ _ v hl hu hb)
  · rw [new_variable_alloc_known cs v mode hm hs] at hok
    obtain ⟨rfl, rfl⟩ :
        (⟨false, cs.numWitness + 8,
          cs.assignment ++ [tcBit v 0, tcBit v 1, tcBit v 2, tcBit v 3, tcBit v 4, tcBit v 5,
            tcBit v 6, tcBit v 7], cs.constraints⟩ : ConstraintSystem) = cs' ∧
        (⟨[Boolean.Is cs.numWitness, Boolean.Is (cs.numWitness + 1),
            Boolean.Is (cs.numWitness + 2), Boolean.Is (cs.numWitness + 3),
            Boolean.Is (cs.numWitness + 4), Boolean.Is (cs.numWitness + 5),
            Boolean.Is (cs.numWitness + 6), Boolean.Is (cs.numWitness + 7)], some v⟩ : Int8)
          = x := by
      have := hok
      simp only [Except.ok.injEq, Prod.mk.injEq] at this
      exact this
    have hb : (([Boolean.Is cs.numWitness, Boolean.Is (cs.numWitness + 1),
        Boolean.Is (cs.numWitness + 2), Boolean.Is (cs.numWitness + 3),
        Boolean.Is (cs.numWitness + 4), Boolean.Is (cs.numWitness + 5),
        Boolean.Is (cs.numWitness + 6), Boolean.Is (cs.numWitness + 7)] : List Boolean).map
          fun b => b.value' ⟨false, cs.numWitness + 8,
            cs.assignment ++ [tcBit v 0, tcBit v 1, tcBit v 2, tcBit v 3, tcBit v 4, tcBit v 5,
              tcBit v 6, tcBit v 7], cs.constraints⟩)
        = (List.range 8).map fun i => Except.ok (tcBit v i) := by
      rw [range_eight_tc, hwf]
      exact map_value'_is_bits _ _ _ _ _ _ _ _ _ _ _ _
    exact repr_ok_of _ _ v rfl hb (value'_tc _ _ _ v hl hu hb)

/-! ### Behaviour of `addmany` -/

lemma addmany_unknown (cs : ConstraintSystem) (op0 op1 : Int8)
    (h : op0.value = none ∨ op1.value = none) :
    Int8.addmany cs op0 op1 =
      Except.error
        (if cs.setupMode then AddError.resultIsNone else AddError.assignmentMissing) := by
  have hrv : (accum_operands (some 0) LinearCombination.zero true [op0, op1]).1 = none := by
    rw [accum_operands_fst]
    rcases h with h | h <;> cases h0 : op0.value <;> cases h1 : op1.value <;> simp_all
  have h254 : 127 * OPERANDS_LEN = 254 := rfl
  simp only [Int8.addmany, hrv, Option.map_none', h254]
  by_cases hs : cs.setupMode
  · rw [alloc_result_bits_254_setup cs _ _ hs]
    simp [I8_SIZE_IN_BITS, hs]
  · rw [alloc_result_bits_254_none cs _ (by simpa using hs)]
    simp [hs]

lemma addmany_ok_cases (cs : ConstraintSystem) (op0 op1 : Int8) (cs' : ConstraintSystem)
    (r : Int8) (hok : Int8.addmany cs op0 op1 = Except.ok (cs', r)) :
    ∃ a b, op0.value = some a ∧ op1.value = some b ∧
      r.value = some ((a + b + 128) % 256 - 128) ∧
      ((cs' = cs ∧ r = Int8.constant ((a + b + 128) % 256 - 128)
          ∧ (op0.all_constant_bits && op1.all_constant_bits) = true)
        ∨ ((op0.all_constant_bits && op1.all_constant_bits) = false
          ∧ r.bits = [Boolean.Is cs.numWitness, Boolean.Is (cs.numWitness + 1),
              Boolean.Is (cs.numWitness + 2), Boolean.Is (cs.numWitness + 3),
              Boolean.Is (cs.numWitness + 4), Boolean.Is (cs.numWitness + 5),
              Boolean.Is (cs.numWitness + 6), Boolean.Is (cs.numWitness + 7)]
          ∧ cs'.setupMode = cs.setupMode
          ∧ cs'.numWitness = cs.numWitness + 8
          ∧ cs'.assignment = cs.assignment ++
              (if cs.setupMode then [] else
                [tcBit (a + b) 0, tcBit (a + b) 1, tcBit (a + b) 2, tcBit (a + b) 3,
                  tcBit (a + b) 4, tcBit (a + b) 5, tcBit (a + b) 6, tcBit (a + b) 7])
          ∧ ∃ lcf, cs'.constraints = cs.constraints ++ [lcf])) := by
  cases h0 : op0.value with
  | none =>
      rw [addmany_unknown cs op0 op1 (Or.inl h0)] at hok
      exact absurd hok (by simp)
  | some a =>
  cases h1 : op1.value with
  | none =>
      rw [addmany_unknown cs op0 op1 (Or.inr h1)] at hok
      exact absurd hok (by simp)
  | some b =>
  refine ⟨a, b, rfl, rfl, ?_⟩
  have hrv : (accum_operands (some 0) LinearCombination.zero true [op0, op1]).1
      = some (a + b) := by
    rw [accum_operands_fst]; simp [h0, h1]
  have hmv : ((accum_operands (some 0) LinearCombination.zero true [op0, op1]).1).map
      modular_reduce = some (Except.ok ((a + b + 128) % 256 - 128)) := by
    rw [hrv]; simp [modular_reduce_ok]
  have hflag := accum_operands_snd_snd op0 op1 (some 0) LinearCombination.zero true
  simp only [Bool.true_and] at hflag
  have h254 : 127 * OPERANDS_LEN = 254 := rfl
  simp only [Int8.addmany, hmv, hflag, h254] at hok
  cases hc : (op0.all_constant_bits && op1.all_constant_bits) with
  | true =>
      rw [hc] at hok
      simp only [Except.ok.injEq, Prod.mk.injEq] at hok
      obtain ⟨rfl, rfl⟩ := hok
      exact ⟨rfl, Or.inl ⟨rfl, rfl, rfl⟩⟩
  | false =>
      rw [hc, hrv] at hok
      by_cases hs : cs.setupMode
      · rw [alloc_result_bits_254_setup cs _ _ hs] at hok
        simp only [I8_SIZE_IN_BITS, ConstraintSystem.enforce_zero, List.take_succ_cons,
          List.take_nil, List.length_cons, List.length_nil, Except.ok.injEq, Prod.mk.injEq,
          reduceIte] at hok
        obtain ⟨rfl, rfl⟩ := hok
        refine ⟨rfl, Or.inr ⟨rfl, rfl, by simp [hs], by simp, by simp [hs], ⟨_, rfl⟩⟩⟩
      · rw [alloc_result_bits_254_known cs _ _ (by simpa using hs)] at hok
        simp only [I8_SIZE_IN_BITS, ConstraintSystem.enforce_zero, List.take_succ_cons,
          List.take_nil, List.length_cons, List.length_nil, Except.ok.injEq, Prod.mk.injEq,
          reduceIte] at hok
        obtain ⟨rfl, rfl⟩ := hok
        refine ⟨rfl, Or.inr ⟨rfl, rfl, by simp [hs], by simp, by simp [hs], ⟨_, rfl⟩⟩⟩

/-! ### The accumulated linear combination realizes the contribution rule -/

lemma enumFrom_cons (k : Nat) (b : Boolean) (rest : List Boolean) :
    List.enumFrom k (b :: rest) = (k, b) :: List.enumFrom (k + 1) rest := rfl

lemma fold_operand_bits_eval (bits : List Boolean) (k : Nat) (lc : LinearCombination)
    (allc : Bool) (ρ : Nat → ℤ) :
    ((fold_operand_bits bits (2 ^ k) lc allc).1).eval ρ =
      lc.eval ρ + ((List.enumFrom k bits).map fun p => bit_contribution p.2 (2 ^ p.1) ρ).sum := by
  induction bits generalizing k lc allc with
  | nil => simp [fold_operand_bits, List.enumFrom]
  | cons b rest ih =>
      have hpow : (2 : ℤ) ^ k * 2 = 2 ^ (k + 1) := by rw [pow_succ]
      cases b with
      | Is v =>
          rw [show fold_operand_bits (Boolean.Is v :: rest) (2 ^ k) lc allc
              = fold_operand_bits rest (2 ^ k * 2) (lc.add_term (2 ^ k) v) false from rfl,
            hpow, ih, enumFrom_cons]
          simp only [List.map_cons, List.sum_cons, eval_add_term, bit_contribution]
          ring
      | Not v =>
          rw [show fold_operand_bits (Boolean.Not v :: rest) (2 ^ k) lc allc
              = fold_operand_bits rest (2 ^ k * 2) ((lc.add_one (2 ^ k)).sub_term (2 ^ k) v)
                  false from rfl,
            hpow, ih, enumFrom_cons]
          simp only [List.map_cons, List.sum_cons, eval_sub_term, eval_add_one, bit_contribution]
          ring
      | Constant bit =>
          cases bit with
          | false =>
              rw [show fold_operand_bits (Boolean.Constant false :: rest) (2 ^ k) lc allc
                  = fold_operand_bits rest (2 ^ k * 2) lc allc from rfl,
                hpow, ih, enumFrom_cons]
              simp only [List.map_cons, List.sum_cons, bit_contribution]
              norm_num
          | true =>
              rw [show fold_operand_bits (Boolean.Constant true :: rest) (2 ^ k) lc allc
                  = fold_operand_bits rest (2 ^ k * 2) (lc.add_one (2 ^ k)) allc from rfl,
                hpow, ih, enumFrom_cons]
              simp only [List.map_cons, List.sum_cons, eval_add_one, bit_contribution]
              norm_num
              try ring

lemma fold_operand_bits_eval_one (bits : List Boolean) (lc : LinearCombination) (allc : Bool)
    (ρ : Nat → ℤ) :
    ((fold_operand_bits bits 1 lc allc).1).eval ρ =
      lc.eval ρ + (bits.enum.map fun p => bit_contribution p.2 (2 ^ p.1) ρ).sum := by
  have h := fold_operand_bits_eval bits 0 lc allc ρ
  simpa [List.enum] using h

lemma eval_lc_zero (ρ : Nat → ℤ) : LinearCombination.zero.eval ρ = 0 := by
  simp [LinearCombination.zero, LinearCombination.eval]

lemma accum_lc_eval (op0 op1 : Int8) (ρ : Nat → ℤ) :
    ((accum_operands (some 0) LinearCombination.zero true [op0, op1]).2.1).eval ρ =
      operand_contribution op0 ρ + operand_contribution op1 ρ := by
  cases h0 : op0.value <;> cases h1 : op1.value <;>
    simp [accum_operands, h0, h1, fold_operand_bits_eval_one, operand_contribution, eval_lc_zero]

lemma addmany_known_ok (cs : ConstraintSystem) (op0 op1 : Int8) (a b : ℤ)
    (h0 : op0.value = some a) (h1 : op1.value = some b) :
    ∃ p, Int8.addmany cs op0 op1 = Except.ok p := by
  have hrv : (accum_operands (some 0) LinearCombination.zero true [op0, op1]).1
      = some (a + b) := by
    rw [accum_operands_fst]; simp [h0, h1]
  have hmv : ((accum_operands (some 0) LinearCombination.zero true [op0, op1]).1).map
      modular_reduce = some (Except.ok ((a + b + 128) % 256 - 128)) := by
    rw [hrv]; simp [modular_reduce_ok]
  have hflag := accum_operands_snd_snd op0 op1 (some 0) LinearCombination.zero true
  simp only [Bool.true_and] at hflag
  have h254 : 127 * OPERANDS_LEN = 254 := rfl
  simp only [Int8.addmany, hmv, hflag, h254]
  cases hc : (op0.all_constant_bits && op1.all_constant_bits) with
  | true => exact ⟨_, rfl⟩
  | false =>
      rw [hrv]
      by_cases hs : cs.setupMode
      · rw [alloc_result_bits_254_setup cs _ _ hs]
        simp [I8_SIZE_IN_BITS]
      · rw [alloc_result_bits_254_known cs _ _ (by simpa using hs)]
        simp [I8_SIZE_IN_BITS]

lemma tcBit_congr_mod (v w : ℤ) (hdvd : v - w = 256 * ((v - w) / 256)) (i : Nat) (hi : i < 8) :
    tcBit v i = tcBit w i := by
  unfold tcBit
  apply beq_one_congr
  interval_cases i <;> omega

lemma repr_ok_addmany (cs : ConstraintSystem) (op0 op1 : Int8) (cs' : ConstraintSystem)
    (r : Int8) (hs : cs.setupMode = false) (hwf : cs.numWitness = cs.assignment.length)
    (hok : Int8.addmany cs op0 op1 = Except.ok (cs', r)) : repr_ok cs' r = true := by
  obtain ⟨a, b, h0, h1, hval, hcase⟩ := addmany_ok_cases cs op0 op1 cs' r hok
  rcases hcase with ⟨rfl, rfl, hflag⟩ | ⟨hflag, hbits, hsm, hnw, hasg, lcf, hcons⟩
  · exact repr_ok_constant _ _ (wrap_lb _) (wrap_ub _)
  · obtain ⟨sm', nw', asg', cons'⟩ := cs'
    obtain ⟨rbits, rval⟩ := r
    simp only [ConstraintSystem.setupMode, ConstraintSystem.numWitness,
      ConstraintSystem.assignment, ConstraintSystem.constraints, Int8.bits, Int8.value,
      hs, Bool.false_eq_true, if_neg, reduceIte] at hsm hnw hasg hcons hbits hval
    subst hsm hnw hasg hcons hbits hval
    have hcongr : ∀ i, i < 8 → tcBit (a + b) i = tcBit ((a + b + 128) % 256 - 128) i := by
      intro i hi
      exact tcBit_congr_mod _ _ (by omega) i hi
    have hlist : [tcBit (a + b) 0, tcBit (a + b) 1, tcBit (a + b) 2, tcBit (a + b) 3,
        tcBit (a + b) 4, tcBit (a + b) 5, tcBit (a + b) 6, tcBit (a + b) 7]
        = [tcBit ((a + b + 128) % 256 - 128) 0, tcBit ((a + b + 128) % 256 - 128) 1,
          tcBit ((a + b + 128) % 256 - 128) 2, tcBit ((a + b + 128) % 256 - 128) 3,
          tcBit ((a + b + 128) % 256 - 128) 4, tcBit ((a + b + 128) % 256 - 128) 5,
          tcBit ((a + b + 128) % 256 - 128) 6, tcBit ((a + b + 128) % 256 - 128) 7] := by
      rw [hcongr 0 (by norm_num), hcongr 1 (by norm_num), hcongr 2 (by norm_num),
        hcongr 3 (by norm_num), hcongr 4 (by norm_num), hcongr 5 (by norm_num),
        hcongr 6 (by norm_num), hcongr 7 (by norm_num)]
    rw [hlist, hwf]
    have hb : (([Boolean.Is cs.assignment.length, Boolean.Is (cs.assignment.length + 1),
        Boolean.Is (cs.assignment.length + 2), Boolean.Is (cs.assignment.length + 3),
        Boolean.Is (cs.assignment.length + 4), Boolean.Is (cs.assignment.length + 5),
        Boolean.Is (cs.assignment.length + 6), Boolean.Is (cs.assignment.length + 7)]
          : List Boolean).map
          fun x => x.value' ⟨false, cs.assignment.length + 8,
            cs.assignment ++ [tcBit ((a + b + 128) % 256 - 128) 0,
              tcBit ((a + b + 128) % 256 - 128) 1, tcBit ((a + b + 128) % 256 - 128) 2,
              tcBit ((a + b + 128) % 256 - 128) 3, tcBit ((a + b + 128) % 256 - 128) 4,
              tcBit ((a + b + 128) % 256 - 128) 5, tcBit ((a + b + 128) % 256 - 128) 6,
              tcBit ((a + b + 128) % 256 - 128) 7], cs.constraints ++ [lcf]⟩)
        = (List.range 8).map fun i => Except.ok (tcBit ((a + b + 128) % 256 - 128) i) := by
      rw [range_eight_tc]
      exact map_value'_is_bits _ _ _ _ _ _ _ _ _ _ _ _
    exact repr_ok_of _ _ _ rfl hb (value'_tc _ _ _ _ (wrap_lb _) (wrap_ub _) hb)

/-! ### Claim theorems -/

/-- C1 (code bug): the claimed overflow detection does not exist in the
code.  Evaluating the embedded source at the failing inputs of the
repository's own `test_addition_with_overflow` / `test_addition_with_underflow`:
`addmany` on witnessed operands 127 and 1 returns `Ok` with the wrapped
value -128, and on -127 and -2 it returns `Ok` with 127, instead of the
error the claim (and those tests) assert.  Moreover the `to_i8` check on
the reduced value — the claimed detector — can never fail: the reduction
always lands in [-128, 127], so the error branch is dead code. -/
theorem addmany_overflow_wraps_without_error :
    ((Int8.new_variable (ConstraintSystem.empty false) (some 127) AllocationMode.Witness).bind
        fun p0 => (Int8.new_variable p0.1 (some 1) AllocationMode.Witness).bind
        fun p1 => (Int8.addmany p1.1 p0.2 p1.2).map fun q => q.2.value)
      = Except.ok (some (-128))
    ∧ ((Int8.new_variable (ConstraintSystem.empty false) (some (-127))
          AllocationMode.Witness).bind
        fun p0 => (Int8.new_variable p0.1 (some (-2)) AllocationMode.Witness).bind
        fun p1 => (Int8.addmany p1.1 p0.2 p1.2).map fun q => q.2.value)
      = Except.ok (some 127)
    ∧ ∀ v : ℤ, modular_reduce v = Except.ok ((v + 128) % 256 - 128) := by
  have hr : List.range 8 = [0, 1, 2, 3, 4, 5, 6, 7] := rfl
  refine ⟨?_, ?_, modular_reduce_ok⟩ <;>
    simp [Int8.new_variable, I8_SIZE_IN_BITS, hr, alloc_bits, Boolean.new_variable,
      AllocatedBool.new_witness, ConstraintSystem.empty, Except.bind, Except.map,
      Int8.addmany, accum_operands, fold_operand_bits, OPERANDS_LEN, modular_reduce_ok,
      alloc_result_bits_254_known, LinearCombination.zero, LinearCombination.add_term,
      tcBit] <;>
    decide

/-- C2 (code bug): in-range addition does return successfully with the
correct cleartext value, but the constraint system does not remain
satisfied whenever the unsigned bit-sum of the operands carries past 255:
`max_value = 127 * 2 = 254` has only 8 bits, so no ninth result bit is
allocated to absorb the carry and the single enforced constraint evaluates
to 256 under the witnessed assignment.  Evaluating the embedded source at
the failing input of the repository's own
`test_addition_with_negative_addend_positive_augend_positive_result`:
witnessed operands -1 and 2 (sum 1, in range) yield `Ok` with value 1 but
an unsatisfied system. -/
theorem addmany_in_range_correct_value_but_unsatisfied :
    ((Int8.new_variable (ConstraintSystem.empty false) (some (-1)) AllocationMode.Witness).bind
        fun p0 => (Int8.new_variable p0.1 (some 2) AllocationMode.Witness).bind
        fun p1 => (Int8.addmany p1.1 p0.2 p1.2).map
          fun q => (q.2.value, q.1.is_satisfied))
      = Except.ok (some 1, false) := by
  have hr : List.range 8 = [0, 1, 2, 3, 4, 5, 6, 7] := rfl
  simp [Int8.new_variable, I8_SIZE_IN_BITS, hr, alloc_bits, Boolean.new_variable,
    AllocatedBool.new_witness, ConstraintSystem.empty, Except.bind, Except.map,
    Int8.addmany, accum_operands, fold_operand_bits, OPERANDS_LEN, modular_reduce_ok,
    alloc_result_bits_254_known, LinearCombination.zero, LinearCombination.add_term,
    tcBit, ConstraintSystem.is_satisfied, ConstraintSystem.enforce_zero,
    LinearCombination.eval, LinearCombination.sub_term, ConstraintSystem.rho]

/-- C3 counterexample: `addmany` on operands allocated in setup mode with
absent cleartext values does fail — with the explicit bail
"The result of the modular addition between Int8 is None" — contrary to
the claim that unknown-value propagation is not an error. -/
theorem addmany_unknown_value_errors_concrete :
    ((Int8.new_variable (ConstraintSystem.empty true) none AllocationMode.Witness).bind
        fun p0 => (Int8.new_variable p0.1 none AllocationMode.Witness).bind
        fun p1 => Int8.addmany p1.1 p0.2 p1.2)
      = Except.error AddError.resultIsNone := by
  have hr : List.replicate 8 (none : Option Bool) = [none, none, none, none, none, none,
    none, none] := rfl
  simp only [Int8.new_variable, I8_SIZE_IN_BITS, hr, alloc_bits, Boolean.new_variable,
    AllocatedBool.new_witness, ConstraintSystem.empty, Except.bind, reduceIte]
  simpa using addmany_unknown _ _ _ (Or.inl rfl)

/-- C3 amended: whenever at least one operand's cleartext value is absent,
`addmany` fails: in setup mode it builds the whole circuit fragment and
then bails with the explicit None-result error, and outside setup mode the
result-bit allocation thunk surfaces the missing assignment; a Signed Byte
with absent value is never produced by `addmany`. -/
theorem addmany_unknown_value_always_errors (cs : ConstraintSystem) (op0 op1 : Int8)
    (h : op0.value = none ∨ op1.value = none) :
    Int8.addmany cs op0 op1 =
      Except.error
        (if cs.setupMode then AddError.resultIsNone else AddError.assignmentMissing) :=
  addmany_unknown cs op0 op1 h

/-- Witness for the amended C3 at a concrete input. -/
theorem addmany_unknown_value_always_errors_witness :
    ((⟨List.replicate 8 (Boolean.Constant false), none⟩ : Int8).value = none
        ∨ (Int8.constant 0).value = none)
      ∧ Int8.addmany (ConstraintSystem.empty false)
          ⟨List.replicate 8 (Boolean.Constant false), none⟩ (Int8.constant 0)
        = Except.error AddError.assignmentMissing := by
  refine ⟨Or.inl rfl, ?_⟩
  have h := addmany_unknown_value_always_errors (ConstraintSystem.empty false)
    ⟨List.replicate 8 (Boolean.Constant false), none⟩ (Int8.constant 0) (Or.inl rfl)
  simpa using h

/-- C4: whenever `addmany` returns successfully and both operand values a
and b are known, the result's cleartext value is the sum biased by 2^7,
reduced by the floor remainder modulo 2^8, and unbiased — that is,
((a + b + 128) % 256) - 128 — and the result has exactly 8 bits. -/
theorem addmany_value_is_wrapped_sum (cs : ConstraintSystem) (op0 op1 : Int8) (a b : ℤ)
    (cs' : ConstraintSystem) (r : Int8)
    (h0 : op0.value = some a) (h1 : op1.value = some b)
    (hok : Int8.addmany cs op0 op1 = Except.ok (cs', r)) :
    r.value = some ((a + b + 128) % 256 - 128) ∧ r.bits.length = 8 := by
  obtain ⟨a', b', h0', h1', hval, hcase⟩ := addmany_ok_cases cs op0 op1 cs' r hok
  rw [h0] at h0'
  rw [h1] at h1'
  obtain rfl : a = a' := by injection h0'
  obtain rfl : b = b' := by injection h1'
  refine ⟨hval, ?_⟩
  rcases hcase with ⟨rfl, rfl, hflag⟩ | ⟨hflag, hbits, hrest⟩
  · exact constant_bits_length _ 8
  · rw [hbits]
    rfl

/-- Witness for C4 at a concrete input. -/
theorem addmany_value_is_wrapped_sum_witness :
    (Int8.constant 2).value = some 2 ∧ (Int8.constant 3).value = some 3
      ∧ (Int8.constant 5).value = some ((2 + 3 + 128) % 256 - 128)
      ∧ (Int8.constant 5).bits.length = 8 := by
  have hok : Int8.addmany (ConstraintSystem.empty false) (Int8.constant 2) (Int8.constant 3)
      = Except.ok (ConstraintSystem.empty false, Int8.constant 5) := by decide
  have h := addmany_value_is_wrapped_sum (ConstraintSystem.empty false) _ _ 2 3 _ _ rfl rfl hok
  exact ⟨rfl, rfl, h.1, h.2⟩

/-- C5: the representation invariant holds for every Signed Byte produced
by the constant constructor, by the allocation constructor, and by
`addmany`: whenever the cleartext value v is present, bit i of the byte
(under the witnessed assignment) equals bit i of the two's-complement
pattern of v for every i < 8, and the accessor decodes the 8 bits back to
v.  For the allocating producers this is stated outside setup mode (only
there is a witnessed assignment) for a well-formed system (every allocated
variable has its assignment). -/
theorem producers_preserve_representation_invariant :
    (∀ (cs : ConstraintSystem) (v : ℤ), -128 ≤ v → v ≤ 127 →
      repr_ok cs (Int8.constant v) = true)
    ∧ (∀ (cs : ConstraintSystem) (v : ℤ) (mode : AllocationMode) (cs' : ConstraintSystem)
        (x : Int8), cs.setupMode = false → cs.numWitness = cs.assignment.length →
        -128 ≤ v → v ≤ 127 →
        Int8.new_variable cs (some v) mode = Except.ok (cs', x) → repr_ok cs' x = true)
    ∧ (∀ (cs : ConstraintSystem) (op0 op1 : Int8) (cs' : ConstraintSystem) (r : Int8),
        cs.setupMode = false → cs.numWitness = cs.assignment.length →
        Int8.addmany cs op0 op1 = Except.ok (cs', r) → repr_ok cs' r = true) :=
  ⟨fun cs v hl hu => repr_ok_constant cs v hl hu,
    fun cs v mode cs' x hs hwf hl hu hok => repr_ok_new_variable cs v mode cs' x hs hwf hl hu hok,
    fun cs op0 op1 cs' r hs hwf hok => repr_ok_addmany cs op0 op1 cs' r hs hwf hok⟩

/-- Witness for C5 at concrete inputs, one per producer. -/
theorem producers_preserve_representation_invariant_witness :
    repr_ok (ConstraintSystem.empty false) (Int8.constant 5) = true
      ∧ (∃ cs' x, Int8.new_variable (ConstraintSystem.empty false) (some (-3))
          AllocationMode.Witness = Except.ok (cs', x) ∧ repr_ok cs' x = true)
      ∧ (∃ cs' r, Int8.addmany (ConstraintSystem.empty false) (Int8.constant 2)
          (Int8.constant 3) = Except.ok (cs', r) ∧ repr_ok cs' r = true) := by
  have h := producers_preserve_representation_invariant
  have hrun1 : Int8.new_variable (ConstraintSystem.empty false) (some (-3))
      AllocationMode.Witness
      = Except.ok (⟨false, 8, [true, false, true, true, true, true, true, true], []⟩,
        ⟨[Boolean.Is 0, Boolean.Is 1, Boolean.Is 2, Boolean.Is 3, Boolean.Is 4, Boolean.Is 5,
          Boolean.Is 6, Boolean.Is 7], some (-3)⟩) := by decide
  have hrun2 : Int8.addmany (ConstraintSystem.empty false) (Int8.constant 2) (Int8.constant 3)
      = Except.ok (ConstraintSystem.empty false, Int8.constant 5) := by decide
  exact ⟨h.1 _ 5 (by decide) (by decide),
    ⟨_, _, hrun1, h.2.1 _ (-3) _ _ _ rfl rfl (by decide) (by decide) hrun1⟩,
    ⟨_, _, hrun2, h.2.2 _ _ _ _ _ rfl rfl hrun2⟩⟩

/-- C6: for every signed 8-bit value v, `constant(v)` yields eight
Constant-kind cells with cleartext value v, and decomposing it into its
bits and recombining them under the signed two's-complement interpretation
— the accessor sums bit i times 2^i for i < 7 and bit 7 times -128 via the
wrapped i8 shift — yields v again. -/
theorem constant_roundtrip (cs : ConstraintSystem) (v : ℤ) (hl : -128 ≤ v) (hu : v ≤ 127) :
    (Int8.constant v).bits.length = 8
      ∧ (Int8.constant v).bits.all Boolean.is_constant = true
      ∧ (Int8.constant v).value = some v
      ∧ Int8.value' cs (Int8.constant v) = Except.ok v := by
  refine ⟨constant_bits_length v 8, constant_bits_all_constant v 8, rfl, ?_⟩
  exact value'_tc cs _ _ v hl hu (constant_bits_map_value' cs v)

/-- Witness for C6 at a concrete input. -/
theorem constant_roundtrip_witness :
    (Int8.constant (-42)).bits.length = 8
      ∧ (Int8.constant (-42)).bits.all Boolean.is_constant = true
      ∧ (Int8.constant (-42)).value = some (-42)
      ∧ Int8.value' (ConstraintSystem.empty false) (Int8.constant (-42)) = Except.ok (-42) :=
  constant_roundtrip (ConstraintSystem.empty false) (-42) (by decide) (by decide)

/-- C7: when every contributing bit of both operands is a compile-time
constant and both cleartext values are known (so the reduced result is
computable), `addmany` short-circuits: it returns the Constant-mode byte
for the wrapped sum and leaves the constraint system completely unchanged
— zero new variables, zero constraints. -/
theorem addmany_constant_fast_path (cs : ConstraintSystem) (op0 op1 : Int8) (a b : ℤ)
    (hc0 : op0.all_constant_bits = true) (hc1 : op1.all_constant_bits = true)
    (h0 : op0.value = some a) (h1 : op1.value = some b) :
    Int8.addmany cs op0 op1 = Except.ok (cs, Int8.constant ((a + b + 128) % 256 - 128))
      ∧ (Int8.constant ((a + b + 128) % 256 - 128)).all_constant_bits = true := by
  have hrv : (accum_operands (some 0) LinearCombination.zero true [op0, op1]).1
      = some (a + b) := by
    rw [accum_operands_fst]; simp [h0, h1]
  have hmv : ((accum_operands (some 0) LinearCombination.zero true [op0, op1]).1).map
      modular_reduce = some (Except.ok ((a + b + 128) % 256 - 128)) := by
    rw [hrv]; simp [modular_reduce_ok]
  have hflag : (accum_operands (some 0) LinearCombination.zero true [op0, op1]).2.2 = true := by
    rw [accum_operands_snd_snd]; simp [hc0, hc1]
  constructor
  · simp only [Int8.addmany, hmv, hflag]
  · exact constant_bits_all_constant _ 8

/-- Witness for C7 at a concrete input. -/
theorem addmany_constant_fast_path_witness :
    Int8.addmany (ConstraintSystem.empty false) (Int8.constant 7) (Int8.constant (-9))
        = Except.ok (ConstraintSystem.empty false, Int8.constant ((7 + -9 + 128) % 256 - 128))
      ∧ (Int8.constant ((7 + -9 + 128) % 256 - 128)).all_constant_bits = true :=
  addmany_constant_fast_path (ConstraintSystem.empty false) _ _ 7 (-9) (by decide) (by decide)
    rfl rfl

/-- C8 counterexample: a successful `addmany` call on two Constant-mode
operands performs zero enforcements — the system comes back unchanged with
zero constraints — so "every successful call performs exactly one
equality-to-zero enforcement" is false as stated. -/
theorem addmany_fast_path_zero_enforcements :
    Int8.addmany (ConstraintSystem.empty false) (Int8.constant 1) (Int8.constant 2)
        = Except.ok (ConstraintSystem.empty false, Int8.constant 3)
      ∧ (ConstraintSystem.empty false).constraints.length = 0 := by
  constructor
  · decide
  · rfl

/-- C8 amended: every successful `addmany` call that does not take the
all-constant fast path enforces exactly one equality-to-zero constraint;
fast-path (all contributing bits constant) successful calls enforce zero,
leaving the constraint list untouched. -/
theorem addmany_enforcement_count (cs : ConstraintSystem) (op0 op1 : Int8)
    (cs' : ConstraintSystem) (r : Int8)
    (hok : Int8.addmany cs op0 op1 = Except.ok (cs', r)) :
    cs'.constraints.length = cs.constraints.length
      + (if op0.all_constant_bits && op1.all_constant_bits then 0 else 1) := by
  obtain ⟨a, b, h0, h1, hval, hcase⟩ := addmany_ok_cases cs op0 op1 cs' r hok
  rcases hcase with ⟨rfl, rfl, hflag⟩ | ⟨hflag, hbits, hsm, hnw, hasg, lcf, hcons⟩
  · rw [hflag]
    simp
  · rw [hflag, hcons]
    simp

/-- Witness for the amended C8 at a concrete input (the fast path, where
the count is zero). -/
theorem addmany_enforcement_count_witness :
    (ConstraintSystem.empty false).constraints.length
      = (ConstraintSystem.empty false).constraints.length
        + (if (Int8.constant 4).all_constant_bits && (Int8.constant 5).all_constant_bits
            then 0 else 1) := by
  have hok : Int8.addmany (ConstraintSystem.empty false) (Int8.constant 4) (Int8.constant 5)
      = Except.ok (ConstraintSystem.empty false, Int8.constant 9) := by decide
  simpa using addmany_enforcement_count (ConstraintSystem.empty false) _ _ _ _ hok

/-- C9: the linear combination `addmany` accumulates over its two operands
(the `accum_operands` loop from the zero combination, exactly as `addmany`
invokes it) evaluates, under every assignment, to the sum of the claimed
per-bit contributions: a Constant bit contributes its fixed value times its
positional weight, a Variable bit contributes weight times the variable,
and a NegatedVariable bit contributes weight times one minus weight times
the variable, where the weight of bit position i is 2^i, doubling per
position and restarting at 1 for each operand — both operands share the
same positional weight scale. -/
theorem addmany_lc_realizes_contribution_rule (op0 op1 : Int8) (ρ : Nat → ℤ) :
    ((accum_operands (some 0) LinearCombination.zero true [op0, op1]).2.1).eval ρ =
      operand_contribution op0 ρ + operand_contribution op1 ρ :=
  accum_lc_eval op0 op1 ρ

/-- C10: the result-bit allocation loop of `addmany`, entered at
`max_value = 127 * OPERANDS_LEN = 254` (bit length 8), always runs exactly
8 iterations: whenever it returns at all it has allocated exactly 8 fresh
witness bits, so truncation to width 8 discards nothing, the conversion of
the collected bits to an 8-element array always succeeds, and the
defensive wrong-bit-count error of `addmany` is unreachable. -/
theorem addmany_result_loop_exactly_eight :
    (∀ (cs : ConstraintSystem) (rv : Option ℤ) (lc : LinearCombination)
        (cs' : ConstraintSystem) (lc' : LinearCombination) (bits : List Boolean),
      alloc_result_bits cs (127 * OPERANDS_LEN) rv 0 1 lc [] = Except.ok (cs', lc', bits) →
        bits.length = 8 ∧ bits.take I8_SIZE_IN_BITS = bits
          ∧ cs'.numWitness = cs.numWitness + 8)
    ∧ (∀ (cs : ConstraintSystem) (op0 op1 : Int8),
        Int8.addmany cs op0 op1 ≠ Except.error AddError.wrongBitCount) := by
  constructor
  · intro cs rv lc cs' lc' bits hok
    rw [show 127 * OPERANDS_LEN = 254 from rfl] at hok
    by_cases hs : cs.setupMode
    · rw [alloc_result_bits_254_setup cs rv lc hs] at hok
      simp only [Except.ok.injEq, Prod.mk.injEq] at hok
      obtain ⟨rfl, rfl, rfl⟩ := hok
      exact ⟨rfl, rfl, rfl⟩
    · cases rv with
      | none =>
          rw [alloc_result_bits_254_none cs lc (by simpa using hs)] at hok
          exact absurd hok (by simp)
      | some v =>
          rw [alloc_result_bits_254_known cs v lc (by simpa using hs)] at hok
          simp only [Except.ok.injEq, Prod.mk.injEq] at hok
          obtain ⟨rfl, rfl, rfl⟩ := hok
          exact ⟨rfl, rfl, rfl⟩
  · intro cs op0 op1 hbad
    cases h0 : op0.value with
    | none =>
        rw [addmany_unknown cs op0 op1 (Or.inl h0)] at hbad
        by_cases hs : cs.setupMode <;> simp [hs] at hbad
    | some a =>
    cases h1 : op1.value with
    | none =>
        rw [addmany_unknown cs op0 op1 (Or.inr h1)] at hbad
        by_cases hs : cs.setupMode <;> simp [hs] at hbad
    | some b =>
        obtain ⟨p, hp⟩ := addmany_known_ok cs op0 op1 a b h0 h1
        rw [hp] at hbad
        exact absurd hbad (by simp)

/-- Witness for C10 at a concrete input. -/
theorem addmany_result_loop_exactly_eight_witness :
    (∃ cs' lc' bits, alloc_result_bits (ConstraintSystem.empty true) (127 * OPERANDS_LEN)
        none 0 1 LinearCombination.zero [] = Except.ok (cs', lc', bits) ∧ bits.length = 8)
      ∧ Int8.addmany (ConstraintSystem.empty false) (Int8.constant 1) (Int8.constant 1)
          ≠ Except.error AddError.wrongBitCount := by
  have h := addmany_result_loop_exactly_eight
  have hrun := alloc_result_bits_254_setup (ConstraintSystem.empty true) none
    LinearCombination.zero rfl
  exact ⟨⟨_, _, _, hrun, (h.1 _ none _ _ _ _ hrun).1⟩, h.2 _ _ _⟩

end Simpleworks
